import Mathlib

/-!
Verification of the submission → tabulation → export pipeline of
`gpcr_streamlit_app.py` (GPCR Functional Activity Studio).

Python strings are embedded as lists of characters (`PyStr`); Python floats
are embedded as rationals (`ℚ`); the pandas DataFrame produced by
`_mock_gpcr_results` is embedded as a list of per-row records, with the
vectorized column operations of lines 61-66 modelled row-wise (they act
independently on each row).  A parsed CSV upload is embedded as a list of
named columns whose cells are `Option PyStr`, `none` standing for a missing
value (pandas `NaN`); `astype(str)` turns a missing value into the literal
string `nan`.
-/

/-- Python strings, embedded as lists of characters. -/
abbrev PyStr := List Char

/-- Coerce a Lean string literal to the `PyStr` embedding. -/
def pystr (s : String) : PyStr := s.toList

/-! ## Scoring and result records (`_mock_gpcr_results`, lines 59-67) -/

/-- The three per-class scores produced for one identifier
(columns `p_agonist`, `p_antagonist`, `p_inactive`). -/
structure ScoreTriple where
  agonist : ℚ
  antagonist : ℚ
  inactive : ℚ
deriving DecidableEq, Repr

/-- Column name `p_agonist` (also the label value produced by `idxmax`). -/
def pAgonistLabel : PyStr := pystr "p_agonist"

/-- Column name `p_antagonist`. -/
def pAntagonistLabel : PyStr := pystr "p_antagonist"

/-- Column name `p_inactive`. -/
def pInactiveLabel : PyStr := pystr "p_inactive"

/-- Row-wise semantics of
`base[["p_agonist", "p_antagonist", "p_inactive"]].idxmax(axis=1)`
(line 65): the name of the first column attaining the row maximum
(pandas `idxmax` returns the first occurrence of the maximum). -/
def idxmax3 (a b c : ℚ) : PyStr :=
  if b ≤ a ∧ c ≤ a then pAgonistLabel
  else if c ≤ b then pAntagonistLabel
  else pInactiveLabel

/-- Column `pred_label` of a row, from its score triple (line 65). -/
def predLabelOf (t : ScoreTriple) : PyStr :=
  idxmax3 t.agonist t.antagonist t.inactive

/-- Column `binary_agonist_vs_antagonist` of a row:
`(base["p_agonist"] >= threshold).astype(int)` (line 66). -/
def binaryOf (t : ScoreTriple) (threshold : ℚ) : ℕ :=
  if t.agonist ≥ threshold then 1 else 0

/-- One row of the results DataFrame returned by `_mock_gpcr_results`. -/
structure ResultRecord where
  smiles : PyStr
  p_agonist : ℚ
  p_antagonist : ℚ
  p_inactive : ℚ
  pred_label : PyStr
  binary : ℕ
deriving DecidableEq, Repr

/-- Assemble one row of the results DataFrame from an identifier, its score
triple and the threshold (lines 61-66, row-wise). -/
def buildRecord (s : PyStr) (t : ScoreTriple) (threshold : ℚ) : ResultRecord :=
  { smiles := s
    p_agonist := t.agonist
    p_antagonist := t.antagonist
    p_inactive := t.inactive
    pred_label := predLabelOf t
    binary := binaryOf t threshold }

/-- The constant score triple assigned to every row by the mock
(lines 62-64): 0.55, 0.35, 0.10, written as explicitly normalized
rationals so that kernel evaluation can compute with them (the equalities
with the decimal literals are proved in `mockTriple_eq`). -/
def mockTriple : ScoreTriple := ⟨mkRat 55 100, mkRat 35 100, mkRat 10 100⟩

/-- The call `_mock_gpcr_results(smiles, threshold)` (lines 59-67): one row per
identifier, in input order, each scored with the constant triple. -/
def mockGpcrResults (smiles : List PyStr) (threshold : ℚ) : List ResultRecord :=
  smiles.map (fun s => buildRecord s mockTriple threshold)

/-- Modelled from the spec's words for the refinement claim about
`predicted_label`: "argmax of the three scores, ties broken by a fixed
priority order (agonist > antagonist > inactive, matching
first-listed-wins semantics)". -/
def specArgmax (t : ScoreTriple) : PyStr :=
  if t.agonist = max t.agonist (max t.antagonist t.inactive) then pAgonistLabel
  else if t.antagonist = max t.agonist (max t.antagonist t.inactive) then
    pAntagonistLabel
  else pInactiveLabel

/-! ## Input normalization (lines 102, 109-121)

Free text: `[s.strip() for s in smiles_text.splitlines() if s.strip()]`.
Tabular upload: `df_up["smiles"].astype(str).tolist()` when `read_csv`
succeeded and a `smiles` column exists; otherwise an error is shown and the
list stays empty. -/

/-- The line-break characters recognized by Python `str.splitlines`
(besides `\r` and `\r\n`, which `splitlinesAux` handles directly). -/
def isLineBreak (c : Char) : Bool :=
  c == '\n' || c == '\x0b' || c == '\x0c' || c == '\x1c' || c == '\x1d' ||
    c == '\x1e' || c == '\x85' || c == '\u2028' || c == '\u2029'

/-- Collapse each two-character `\r\n` line break into a single `\n`, so
that afterwards every line break is a single character. -/
def normNewlines : PyStr → PyStr
  | [] => []
  | '\r' :: '\n' :: rest => '\n' :: normNewlines rest
  | c :: rest => c :: normNewlines rest

/-- Worker for Python `str.splitlines` on input whose breaks are single
characters: accumulates the current line in reverse in `acc`; a trailing
line terminator does not open a final empty line. -/
def splitlinesAux : PyStr → PyStr → List PyStr
  | [], acc => if acc = [] then [] else [acc.reverse]
  | c :: rest, acc =>
    if c = '\r' ∨ isLineBreak c = true then acc.reverse :: splitlinesAux rest []
    else splitlinesAux rest (c :: acc)

/-- Python `str.splitlines`. -/
def pySplitlines (s : PyStr) : List PyStr := splitlinesAux (normNewlines s) []

/-- The characters stripped by Python `str.strip()` with no argument
(ASCII whitespace; rarer Unicode spaces are not modelled). -/
def isPySpace (c : Char) : Bool :=
  c == ' ' || c == '\t' || c == '\n' || c == '\r' || c == '\x0b' || c == '\x0c'

/-- Python `str.strip()`. -/
def pyStrip (s : PyStr) : PyStr :=
  ((s.dropWhile isPySpace).reverse.dropWhile isPySpace).reverse

/-- Line 121: `[s.strip() for s in smiles_text.splitlines() if s.strip()]`
(an empty Python string is falsy, so stripped-empty lines are dropped). -/
def parseFreeText (text : PyStr) : List PyStr :=
  (pySplitlines text).filterMap
    (fun s => if pyStrip s = [] then none else some (pyStrip s))

/-- One cell of a parsed CSV column; `none` models a missing value
(pandas `NaN`). -/
abbrev Cell := Option PyStr

/-- A parsed CSV upload: named columns of cells. -/
structure UploadTable where
  cols : List (PyStr × List Cell)
deriving DecidableEq

/-- Column name `smiles` (the required identifier column). -/
def smilesName : PyStr := pystr "smiles"

/-- Lookup `df_up[name]` after `name in df_up.columns`: the first column with the
given name. -/
def getColumn (t : UploadTable) (name : PyStr) : Option (List Cell) :=
  (t.cols.find? (fun p => p.1 == name)).map Prod.snd

/-- Conversion `astype(str)` of one cell: a missing value (`NaN`) stringifies to the
literal `nan`; a present string cell is kept verbatim. -/
def astypeStr (c : Cell) : PyStr :=
  match c with
  | none => pystr "nan"
  | some s => s

/-- The state of the file-upload channel when the submission runs:
no file, `pd.read_csv` raised (line 117), or a parsed table. -/
inductive Uploaded where
  | absent
  | failed (msg : PyStr)
  | table (t : UploadTable)
deriving DecidableEq

/-- The identifiers contributed by the upload channel (lines 110-118):
`df_up["smiles"].astype(str).tolist()` when the upload parsed and has a
`smiles` column, otherwise the list stays empty. -/
def tabularIds (u : Uploaded) : List PyStr :=
  match u with
  | .table t =>
    match getColumn t smilesName with
    | some col => col.map astypeStr
    | none => []
  | _ => []

/-- The error message shown for the upload, if any (lines 114 and 118).
The quotes around the word smiles in the on-screen schema message are not
reproduced; only presence or absence of an error matters here. -/
def uploadError (u : Uploaded) : Option PyStr :=
  match u with
  | .absent => none
  | .failed msg => some (pystr "Error reading CSV: " ++ msg)
  | .table t =>
    match getColumn t smilesName with
    | some _ => none
    | none => some (pystr "Uploaded CSV must contain a smiles column.")

/-- Lines 109-121: the final `smiles_list`.  The free-text channel is
consulted only when the text is non-empty (truthy) and the upload channel
contributed nothing. -/
def resolveIdentifiers (u : Uploaded) (text : PyStr) : List PyStr :=
  if text ≠ [] ∧ tabularIds u = [] then parseFreeText text else tabularIds u

/-- Line 125: the message shown when no identifier was resolved. -/
def noInputMsg : PyStr := pystr "Provide at least one SMILES string before predicting."

/-! ## Decimal rendering of numbers -/

/-- Big-endian decimal digits of a natural number, fuel-guarded. -/
def natDigitsAux : ℕ → ℕ → List ℕ
  | 0, _ => []
  | fuel + 1, n => if n < 10 then [n] else natDigitsAux fuel (n / 10) ++ [n % 10]

/-- Big-endian decimal digits of a natural number. -/
def natDigits (n : ℕ) : List ℕ := natDigitsAux (n + 1) n

/-- The character of one decimal digit. -/
def digitChar (d : ℕ) : Char := Char.ofNat (48 + d)

/-- Python `str(n)` for a non-negative integer. -/
def natRepr (n : ℕ) : PyStr := (natDigits n).map digitChar

/-- The value of a big-endian digit list. -/
def digitsVal (ds : List ℕ) : ℕ := ds.foldl (fun a d => a * 10 + d) 0

/-- Round to the nearest integer, ties to even (the rounding used by
Python `format`). -/
def roundHalfEven (x : ℚ) : ℤ :=
  if x - ⌊x⌋ = 1 / 2 then (if Even ⌊x⌋ then ⌊x⌋ else ⌊x⌋ + 1) else round x

/-- A digit list zero-padded on the left to 4 places. -/
def pad4 (n : ℕ) : PyStr :=
  List.replicate (4 - (natDigits n).length) '0' ++ (natDigits n).map digitChar

/-- Python `f"{x:.4f}"` on a rational value: fixed-point with exactly four
fractional digits. -/
def fmt4 (q : ℚ) : PyStr :=
  (if roundHalfEven (q * 10000) < 0 then ['-'] else []) ++
    natRepr ((roundHalfEven (q * 10000)).natAbs / 10000) ++
    '.' :: pad4 ((roundHalfEven (q * 10000)).natAbs % 10000)

/-- Fractional decimal digits of `r / d`, fuel-guarded; stops at remainder
zero. -/
def fracDigitsAux : ℕ → ℕ → ℕ → List ℕ
  | 0, _, _ => []
  | fuel + 1, r, d => if r = 0 then [] else 10 * r / d :: fracDigitsAux fuel (10 * r % d) d

/-- Python `repr` of a non-special float as written by pandas `to_csv`:
for the finite-decimal values occurring in this program it is the exact
decimal expansion, with at least one fractional digit. -/
def floatRepr (q : ℚ) : PyStr :=
  (if q < 0 then ['-'] else []) ++ natRepr (q.num.natAbs / q.den) ++
    '.' :: (if fracDigitsAux q.den (q.num.natAbs % q.den) q.den = [] then ['0']
      else (fracDigitsAux q.den (q.num.natAbs % q.den) q.den).map digitChar)

/-! ## Per-ligand archive export (lines 136-147) -/

/-- The entry name `ligand_<n>.txt`. -/
def ligandName (n : ℕ) : PyStr := pystr "ligand_" ++ natRepr n ++ pystr ".txt"

/-- The fixed-format text block written for one record (lines 140-146). -/
def entryTxt (r : ResultRecord) : PyStr :=
  pystr "smiles: " ++ r.smiles ++
    ('\n' :: pystr "p_agonist: ") ++ fmt4 r.p_agonist ++
    ('\n' :: pystr "p_antagonist: ") ++ fmt4 r.p_antagonist ++
    ('\n' :: pystr "p_inactive: ") ++ fmt4 r.p_inactive ++
    ('\n' :: pystr "label: ") ++ r.pred_label ++ ['\n']

/-- The archive entries produced by `for i, row in results.iterrows()`
starting at index `i` (the DataFrame has a fresh 0-based range index). -/
def zipEntriesFrom (i : ℕ) : List ResultRecord → List (PyStr × PyStr)
  | [] => []
  | r :: rs => (ligandName (i + 1), entryTxt r) :: zipEntriesFrom (i + 1) rs

/-- The full archive: one `ligand_<n>.txt` entry per record, `n` the 1-based
position (lines 137-147). -/
def zipEntriesOf (t : List ResultRecord) : List (PyStr × PyStr) := zipEntriesFrom 0 t

/-! ## Flat CSV export (`results.to_csv(index=False)`, line 133)

`to_csv` uses the `csv` dialect with minimal quoting: a field containing a
comma, a double quote or a line break is wrapped in double quotes with
inner quotes doubled; floats are written in full precision via `repr`;
each row, header first, ends with a newline. -/

/-- Whether the csv writer must quote this field (QUOTE_MINIMAL). -/
def needsQuote (s : PyStr) : Bool :=
  s.any (fun c => c == ',' || c == '"' || c == '\n' || c == '\r')

/-- Double every inner double quote. -/
def escapeInner (s : PyStr) : PyStr :=
  s.flatMap (fun c => if c = '"' then ['"', '"'] else [c])

/-- Serialize one field with minimal quoting. -/
def escapeField (s : PyStr) : PyStr :=
  if needsQuote s then '"' :: (escapeInner s ++ ['"']) else s

/-- Serialize one row: fields joined by commas. -/
def rowChars : List PyStr → PyStr
  | [] => []
  | [f] => escapeField f
  | f :: fs => escapeField f ++ ',' :: rowChars fs

/-- The header row fields, in column order (line 61-66 column creation
order, identifier column first). -/
def headerFields : List PyStr :=
  [pystr "smiles", pystr "p_agonist", pystr "p_antagonist", pystr "p_inactive",
    pystr "pred_label", pystr "binary_agonist_vs_antagonist"]

/-- The six serialized fields of one record, in column order. -/
def recordFields (r : ResultRecord) : List PyStr :=
  [r.smiles, floatRepr r.p_agonist, floatRepr r.p_antagonist,
    floatRepr r.p_inactive, r.pred_label, natRepr r.binary]

/-- Serialization `results.to_csv(index=False)`: header row then one row per record, each
row ending with a newline. -/
def toCsvChars (t : List ResultRecord) : PyStr :=
  ((headerFields :: t.map recordFields).map (fun fs => rowChars fs ++ ['\n'])).flatten

/-! ## CSV parsing (spec side, for the round-trip property)

A standard parser for the csv dialect written by `toCsvChars`: quoted
fields with doubled inner quotes, comma separators, newline row
terminators. -/

/-- Parse the remainder of a quoted field (after the opening quote):
returns the field content and the input after the closing quote. -/
def parseQuoted : PyStr → Option (PyStr × PyStr)
  | [] => none
  | c :: rest =>
    if c = '"' then
      match rest with
      | '"' :: rest2 => (parseQuoted rest2).map (fun p => ('"' :: p.1, p.2))
      | _ => some ([], rest)
    else (parseQuoted rest).map (fun p => (c :: p.1, p.2))

/-- Parse an unquoted field: everything up to the next comma or newline
(left unconsumed). -/
def parseBareField : PyStr → PyStr × PyStr
  | [] => ([], [])
  | c :: rest =>
    if c = ',' ∨ c = '\n' then ([], c :: rest)
    else ((parseBareField rest).1.cons c, (parseBareField rest).2)

/-- Parse one field, quoted or bare. -/
def parseOneField (s : PyStr) : Option (PyStr × PyStr) :=
  if s.head? = some '"' then parseQuoted s.tail else some (parseBareField s)

/-- Parse one newline-terminated row of fields, fuel-guarded. -/
def parseRecordAux : ℕ → PyStr → Option (List PyStr × PyStr)
  | 0, _ => none
  | fuel + 1, s =>
    (parseOneField s).bind fun p =>
      match p.2 with
      | ',' :: r => (parseRecordAux fuel r).map (fun q => (p.1 :: q.1, q.2))
      | '\n' :: r => some ([p.1], r)
      | _ => none

/-- Parse all rows until the input is exhausted, fuel-guarded. -/
def parseRowsAux : ℕ → PyStr → Option (List (List PyStr))
  | 0, s => if s = [] then some [] else none
  | fuel + 1, s =>
    if s = [] then some []
    else (parseRecordAux (s.length + 1) s).bind fun p =>
      (parseRowsAux fuel p.2).map (fun rs => p.1 :: rs)

/-- Decode one decimal natural field. -/
def parseNatChars (s : PyStr) : Option ℕ :=
  if s = [] then none
  else s.foldl
    (fun acc c => acc.bind (fun a =>
      if c.isDigit then some (a * 10 + (c.toNat - 48)) else none))
    (some 0)

/-- Decode one fixed-point decimal field `intpart.fracpart`. -/
def parseFloatChars (s : PyStr) : Option ℚ :=
  match s.dropWhile (fun c => c != '.') with
  | '.' :: fp =>
    (parseNatChars (s.takeWhile (fun c => c != '.'))).bind fun i =>
      (parseNatChars fp).map fun f => (i : ℚ) + (f : ℚ) / (10 : ℚ) ^ fp.length
  | _ => none

/-- Decode one data row back into a record. -/
def decodeRecord : List PyStr → Option ResultRecord
  | [s, a, b, c, l, bin] =>
    (parseFloatChars a).bind fun qa =>
      (parseFloatChars b).bind fun qb =>
        (parseFloatChars c).bind fun qc =>
          (parseNatChars bin).map fun nb =>
            ⟨s, qa, qb, qc, l, nb⟩
  | _ => none

/-- Decode all data rows. -/
def decodeRows : List (List PyStr) → Option (List ResultRecord)
  | [] => some []
  | r :: rs => (decodeRecord r).bind fun x => (decodeRows rs).map (fun t => x :: t)

/-- Parse a full flat export: header row then data rows. -/
def parseCsvChars (s : PyStr) : Option (List ResultRecord) :=
  (parseRowsAux (s.length + 1) s).bind fun rows =>
    match rows with
    | [] => none
    | hdr :: dataRows =>
      if hdr = headerFields then decodeRows dataRows else none

/-- A score value as produced by the program's arithmetic: non-negative
with a finite decimal expansion (every IEEE float printed by `repr` has
one; the mock scores are 0.55, 0.35, 0.10). -/
def GoodScore (q : ℚ) : Prop := 0 ≤ q ∧ q.den ∣ 10 ^ q.den

instance (q : ℚ) : Decidable (GoodScore q) := by
  unfold GoodScore; infer_instance

/-- A record whose three scores are program-representable values. -/
def GoodRecord (r : ResultRecord) : Prop :=
  GoodScore r.p_agonist ∧ GoodScore r.p_antagonist ∧ GoodScore r.p_inactive

instance (r : ResultRecord) : Decidable (GoodRecord r) := by
  unfold GoodRecord; infer_instance

/-! ## The whole submission (lines 123-149) -/

/-- Everything produced for one successful submission: the result table,
the flat CSV export and the per-ligand archive entries. -/
structure SubmissionOutput where
  table : List ResultRecord
  csv : PyStr
  archive : List (PyStr × PyStr)
deriving DecidableEq

/-- Assemble the outputs of a successful submission from its table. -/
def mkSubmissionOutput (t : List ResultRecord) : SubmissionOutput :=
  ⟨t, toCsvChars t, zipEntriesOf t⟩

/-- Lines 123-149: on Predict, fail with the no-input message when no
identifier was resolved, otherwise score and build both exports. -/
def runSubmission (u : Uploaded) (text : PyStr) (threshold : ℚ) :
    Except PyStr SubmissionOutput :=
  if resolveIdentifiers u text = [] then .error noInputMsg
  else .ok (mkSubmissionOutput (mockGpcrResults (resolveIdentifiers u text) threshold))

/-- Spec-side constructor for the amended normalization claim: the
free-text document whose lines are the given strings. -/
def joinNL : List PyStr → PyStr
  | [] => []
  | [x] => x
  | x :: y :: rest => x ++ '\n' :: joinNL (y :: rest)

/-- Spec-side predicate: a line that the free-text normalizer passes
through unchanged — non-empty, already stripped, and containing no
line-break character. -/
def CleanLine (x : PyStr) : Prop :=
  x ≠ [] ∧ pyStrip x = x ∧ ∀ c ∈ x, ¬(c = '\r' ∨ isLineBreak c = true)

instance (x : PyStr) : Decidable (CleanLine x) := by
  unfold CleanLine; infer_instance

/-! ## Theorems -/

theorem mockTriple_eq : mockTriple = ⟨0.55, 0.35, 0.10⟩ := by
  have h1 : (mkRat 55 100 : ℚ) = 0.55 := by norm_num [Rat.mkRat_eq_div]
  have h2 : (mkRat 35 100 : ℚ) = 0.35 := by norm_num [Rat.mkRat_eq_div]
  have h3 : (mkRat 10 100 : ℚ) = 0.10 := by norm_num [Rat.mkRat_eq_div]
  unfold mockTriple
  rw [h1, h2, h3]

theorem idxmax3_eq_specArgmax (t : ScoreTriple) : predLabelOf t = specArgmax t := by
  obtain ⟨a, b, c⟩ := t
  simp only [predLabelOf, specArgmax, idxmax3]
  by_cases h1 : b ≤ a ∧ c ≤ a
  · have hm : max a (max b c) = a := max_eq_left (max_le h1.1 h1.2)
    rw [if_pos h1, hm, if_pos rfl]
  · have hlt : a < b ∨ a < c := by
      rcases not_and_or.mp h1 with h | h
      · exact Or.inl (lt_of_not_le h)
      · exact Or.inr (lt_of_not_le h)
    by_cases h2 : c ≤ b
    · have hab : a ≤ b := by
        rcases hlt with h | h
        · exact le_of_lt h
        · exact le_of_lt (lt_of_lt_of_le h h2)
      have hm : max a (max b c) = b := by
        rw [max_eq_left h2, max_eq_right hab]
      have hne : a ≠ max a (max b c) := by
        rw [hm]
        rcases hlt with h | h
        · exact ne_of_lt h
        · exact ne_of_lt (lt_of_lt_of_le h h2)
      rw [if_neg h1, if_pos h2, if_neg hne, hm, if_pos rfl]
    · have hbc : b < c := lt_of_not_le h2
      have hcm : c ≤ max a (max b c) := le_trans (le_max_right b c) (le_max_right _ _)
      have hnea : a ≠ max a (max b c) := by
        rcases hlt with h | h
        · exact ne_of_lt (lt_of_lt_of_le (lt_of_lt_of_le h (le_of_lt hbc)) hcm)
        · exact ne_of_lt (lt_of_lt_of_le h hcm)
      have hneb : b ≠ max a (max b c) := ne_of_lt (lt_of_lt_of_le hbc hcm)
      rw [if_neg h1, if_neg h2, if_neg hnea, if_neg hneb]

/-- C1: `_mock_gpcr_results` returns exactly one row per identifier, in
input order, and every row carries the constant score triple
(0.55, 0.35, 0.10) regardless of the identifier's content. -/
theorem mock_one_row_per_identifier_constant_scores
    (ids : List PyStr) (threshold : ℚ) (_h : ids ≠ []) :
    (mockGpcrResults ids threshold).map (fun r => r.smiles) = ids ∧
    ∀ r ∈ mockGpcrResults ids threshold,
      r.p_agonist = 0.55 ∧ r.p_antagonist = 0.35 ∧ r.p_inactive = 0.10 := by
  clear _h
  constructor
  · induction ids with
    | nil => rfl
    | cons x xs ih => simpa [mockGpcrResults, buildRecord] using ih
  · intro r hr
    simp only [mockGpcrResults, List.mem_map] at hr
    obtain ⟨s, _, rfl⟩ := hr
    rw [mockTriple_eq]
    exact ⟨rfl, rfl, rfl⟩

theorem mock_one_row_per_identifier_constant_scores_witness :
    (([pystr "CCO", pystr "CCN"] : List PyStr) ≠ []) ∧
    ((mockGpcrResults [pystr "CCO", pystr "CCN"] 0.5).map (fun r => r.smiles)
        = [pystr "CCO", pystr "CCN"] ∧
      ∀ r ∈ mockGpcrResults [pystr "CCO", pystr "CCN"] 0.5,
        r.p_agonist = 0.55 ∧ r.p_antagonist = 0.35 ∧ r.p_inactive = 0.10) :=
  ⟨by decide,
   mock_one_row_per_identifier_constant_scores [pystr "CCO", pystr "CCN"] 0.5
     (by decide)⟩

/-- C2: every record's `pred_label` is the argmax of its three scores with
ties broken by the fixed priority agonist > antagonist > inactive
(first-listed wins), and in particular the triple (0.5, 0.5, 0.0) yields
the agonist label. -/
theorem pred_label_is_priority_argmax :
    (∀ (s : PyStr) (t : ScoreTriple) (threshold : ℚ),
      (buildRecord s t threshold).pred_label = specArgmax t) ∧
    (∀ (s : PyStr) (threshold : ℚ),
      (buildRecord s ⟨0.5, 0.5, 0⟩ threshold).pred_label = pAgonistLabel) := by
  constructor
  · intro s t threshold
    exact idxmax3_eq_specArgmax t
  · intro s threshold
    show idxmax3 0.5 0.5 0 = pAgonistLabel
    norm_num [idxmax3]

/-- C3: every record's binary decision is 1 exactly when its agonist score
is at least the threshold, 0 otherwise; in particular agonist score 0.55
against threshold 0.55 decides 1. -/
theorem binary_decision_threshold :
    (∀ (s : PyStr) (t : ScoreTriple) (threshold : ℚ),
      ((buildRecord s t threshold).binary = 1 ↔ t.agonist ≥ threshold) ∧
      ((buildRecord s t threshold).binary = 0 ↔ ¬ t.agonist ≥ threshold)) ∧
    (∀ (s : PyStr) (b c : ℚ),
      (buildRecord s ⟨0.55, b, c⟩ 0.55).binary = 1) := by
  refine ⟨fun s t threshold => ?_, fun s b c => ?_⟩
  · show ((if t.agonist ≥ threshold then 1 else 0) = 1 ↔ _) ∧
      ((if t.agonist ≥ threshold then 1 else 0) = 0 ↔ _)
    split_ifs with h <;> simp [h]
  · show (if (0.55 : ℚ) ≥ 0.55 then 1 else 0) = 1
    norm_num

lemma parseFreeText_nil_eq : parseFreeText [] = [] := rfl

lemma resolve_of_tabularIds_nil (u : Uploaded) (text : PyStr)
    (h : tabularIds u = []) :
    resolveIdentifiers u text = parseFreeText text := by
  unfold resolveIdentifiers
  by_cases ht : text = []
  · subst ht
    rw [if_neg (fun hand => hand.1 rfl), h, parseFreeText_nil_eq]
  · rw [if_pos ⟨ht, h⟩]

lemma tabularIds_of_uploadError (u : Uploaded) (h : uploadError u ≠ none) :
    tabularIds u = [] := by
  cases u with
  | absent => exact absurd rfl h
  | failed m => rfl
  | table t =>
    simp only [uploadError] at h
    simp only [tabularIds]
    cases hc : getColumn t smilesName with
    | none => rfl
    | some col => rw [hc] at h; exact absurd rfl h

lemma resolve_table_nonempty_col (t : UploadTable) (col : List Cell) (text : PyStr)
    (hcol : getColumn t smilesName = some col) (hne : col ≠ []) :
    resolveIdentifiers (.table t) text = col.map astypeStr := by
  have htab : tabularIds (.table t) = col.map astypeStr := by
    simp only [tabularIds]; rw [hcol]
  have hmapne : col.map astypeStr ≠ [] := by
    simpa [List.map_eq_nil_iff] using hne
  unfold resolveIdentifiers
  rw [htab, if_neg (fun hand => hmapne hand.2)]

/-- C7: when zero identifiers are resolved from both channels, the
submission fails with the no-input error before any scoring: no result
table, no CSV and no archive are produced. -/
theorem no_input_aborts (u : Uploaded) (text : PyStr) (threshold : ℚ)
    (h : resolveIdentifiers u text = []) :
    runSubmission u text threshold = .error noInputMsg := by
  unfold runSubmission
  rw [if_pos h]

theorem no_input_aborts_witness :
    resolveIdentifiers Uploaded.absent [] = [] ∧
    runSubmission Uploaded.absent [] (mkRat 1 2) = .error noInputMsg :=
  ⟨by decide, no_input_aborts Uploaded.absent [] (mkRat 1 2) (by decide)⟩

/-- C4 counterexample: an unreadable upload combined with non-empty free
text is not aborted — the free-text identifiers are resolved and scoring
proceeds, producing a result table. -/
theorem upload_error_abort_counterexample :
    uploadError (.failed (pystr "bad file")) ≠ none ∧
    resolveIdentifiers (.failed (pystr "bad file")) (pystr "CCO") = [pystr "CCO"] ∧
    (runSubmission (.failed (pystr "bad file")) (pystr "CCO") (mkRat 1 2)).toOption.map
        SubmissionOutput.table
      = some (mockGpcrResults [pystr "CCO"] (mkRat 1 2)) :=
  ⟨by decide, by decide, by decide⟩

/-- C4 (amended): when the upload errors (missing `smiles` column or
unreadable file) the error is reported and the tabular channel contributes
no identifiers; the submission then falls back to the free-text channel,
so it is aborted with no result and no exports exactly when free text also
yields no identifiers. -/
theorem upload_error_fallback (u : Uploaded) (text : PyStr) (threshold : ℚ)
    (h : uploadError u ≠ none) :
    tabularIds u = [] ∧
    runSubmission u text threshold =
      if parseFreeText text = [] then .error noInputMsg
      else .ok (mkSubmissionOutput (mockGpcrResults (parseFreeText text) threshold)) := by
  have ht := tabularIds_of_uploadError u h
  refine ⟨ht, ?_⟩
  unfold runSubmission
  rw [resolve_of_tabularIds_nil u text ht]

theorem upload_error_fallback_witness :
    uploadError (Uploaded.failed (pystr "oops")) ≠ none ∧
    (tabularIds (Uploaded.failed (pystr "oops")) = [] ∧
      runSubmission (Uploaded.failed (pystr "oops")) (pystr "CCO") (mkRat 1 2) =
        if parseFreeText (pystr "CCO") = [] then .error noInputMsg
        else .ok (mkSubmissionOutput
          (mockGpcrResults (parseFreeText (pystr "CCO")) (mkRat 1 2)))) :=
  ⟨by decide, upload_error_fallback _ _ _ (by decide)⟩

/-- C5 counterexample: an upload that does contain the `smiles` column but
with zero rows does not take precedence — the resulting identifiers come
from the free text, not from the table's (empty) column. -/
theorem tabular_precedence_counterexample :
    getColumn (⟨[(smilesName, [])]⟩ : UploadTable) smilesName = some [] ∧
    resolveIdentifiers (.table ⟨[(smilesName, [])]⟩) (pystr "CCO") = [pystr "CCO"] :=
  ⟨by decide, by decide⟩

/-- C5 (amended): an upload whose `smiles` column is non-empty takes
precedence over free text — the identifiers are exactly the stringified
column; free text is consulted exactly when the tabular channel
contributes no identifiers. -/
theorem tabular_precedence_amended :
    (∀ (t : UploadTable) (col : List Cell) (text : PyStr),
      getColumn t smilesName = some col → col ≠ [] →
      resolveIdentifiers (.table t) text = col.map astypeStr) ∧
    (∀ (u : Uploaded) (text : PyStr),
      tabularIds u = [] → resolveIdentifiers u text = parseFreeText text) :=
  ⟨fun t col text hcol hne => resolve_table_nonempty_col t col text hcol hne,
   fun u text h => resolve_of_tabularIds_nil u text h⟩

theorem tabular_precedence_amended_witness :
    getColumn (⟨[(smilesName, [some (pystr "CCC")])]⟩ : UploadTable) smilesName
      = some [some (pystr "CCC")] ∧
    resolveIdentifiers (.table ⟨[(smilesName, [some (pystr "CCC")])]⟩) (pystr "CCO")
      = [pystr "CCC"] :=
  ⟨by decide,
   (tabular_precedence_amended.1 ⟨[(smilesName, [some (pystr "CCC")])]⟩
      [some (pystr "CCC")] (pystr "CCO") (by decide) (by decide)).trans (by decide)⟩

/-- C10: on the tabular path the identifiers are the stringified column
values taken verbatim — no trimming, no dropping of empty values, a
missing cell stringifies to the literal `nan` — while the free-text path
trims each line and drops the lines that become empty. -/
theorem tabular_values_verbatim :
    (∀ (t : UploadTable) (col : List Cell) (text : PyStr),
      getColumn t smilesName = some col → col ≠ [] →
      resolveIdentifiers (.table t) text = col.map astypeStr) ∧
    (∀ s : PyStr, astypeStr (some s) = s) ∧
    astypeStr (none : Cell) = pystr "nan" ∧
    parseFreeText (pystr "  CCO  \n\n") = [pystr "CCO"] :=
  ⟨fun t col text hcol hne => resolve_table_nonempty_col t col text hcol hne,
   fun s => rfl, rfl, by decide⟩

theorem tabular_values_verbatim_witness :
    getColumn (⟨[(smilesName, [some (pystr "  "), none])]⟩ : UploadTable) smilesName
      = some [some (pystr "  "), none] ∧
    resolveIdentifiers (.table ⟨[(smilesName, [some (pystr "  "), none])]⟩)
        (pystr "CCN")
      = [pystr "  ", pystr "nan"] :=
  ⟨by decide,
   (tabular_values_verbatim.1 ⟨[(smilesName, [some (pystr "  "), none])]⟩
      [some (pystr "  "), none] (pystr "CCN") (by decide) (by decide)).trans
     (by decide)⟩

lemma normNewlines_id_of_no_cr (s : PyStr) (h : ∀ c ∈ s, c ≠ '\r') :
    normNewlines s = s := by
  induction s with
  | nil => rfl
  | cons c rest ih =>
    have hc : c ≠ '\r' := h c (by simp)
    rw [normNewlines.eq_def]
    split
    · simp_all
    · simp_all
    · rename_i heq
      injection heq with h1 h2
      subst h1
      subst h2
      rw [ih (fun d hd => h d (by simp [hd]))]

lemma splitlinesAux_cons_break (c : Char) (rest acc : PyStr)
    (h : c = '\r' ∨ isLineBreak c = true) :
    splitlinesAux (c :: rest) acc = acc.reverse :: splitlinesAux rest [] := by
  simp only [splitlinesAux]
  rw [if_pos h]

lemma splitlinesAux_cons_plain (c : Char) (rest acc : PyStr)
    (h : ¬(c = '\r' ∨ isLineBreak c = true)) :
    splitlinesAux (c :: rest) acc = splitlinesAux rest (c :: acc) := by
  simp only [splitlinesAux]
  rw [if_neg h]

lemma splitlinesAux_chunk (x : PyStr)
    (hx : ∀ c ∈ x, ¬(c = '\r' ∨ isLineBreak c = true)) (rest acc : PyStr) :
    splitlinesAux (x ++ rest) acc = splitlinesAux rest (x.reverse ++ acc) := by
  induction x generalizing acc with
  | nil => simp
  | cons c x ih =>
    rw [List.cons_append, splitlinesAux_cons_plain c _ _ (hx c (by simp)),
      ih (fun d hd => hx d (by simp [hd]))]
    simp

lemma joinNL_chars (xs : List PyStr) (c : Char) (hc : c ∈ joinNL xs) :
    c = '\n' ∨ ∃ x ∈ xs, c ∈ x := by
  induction xs with
  | nil => simp [joinNL] at hc
  | cons x ys ih =>
    cases ys with
    | nil =>
      exact Or.inr ⟨x, by simp, hc⟩
    | cons y zs =>
      rw [joinNL] at hc
      rcases List.mem_append.mp hc with h | h
      · exact Or.inr ⟨x, by simp, h⟩
      · rcases List.mem_cons.mp h with rfl | h
        · exact Or.inl rfl
        · rcases ih h with h | ⟨z, hz, hcz⟩
          · exact Or.inl h
          · exact Or.inr ⟨z, by simp [List.mem_cons.mp hz], hcz⟩

lemma pySplitlines_joinNL (xs : List PyStr) (hxs : ∀ x ∈ xs, CleanLine x) :
    pySplitlines (joinNL xs) = xs := by
  have hnc : ∀ c ∈ joinNL xs, c ≠ '\r' := by
    intro c hc
    rcases joinNL_chars xs c hc with rfl | ⟨x, hx, hcx⟩
    · decide
    · exact fun hcr => ((hxs x hx).2.2 c hcx) (Or.inl hcr)
  unfold pySplitlines
  rw [normNewlines_id_of_no_cr _ hnc]
  clear hnc
  induction xs with
  | nil => rfl
  | cons x ys ih =>
    have hx := hxs x (by simp)
    cases ys with
    | nil =>
      show splitlinesAux (joinNL [x]) [] = [x]
      rw [joinNL, ← List.append_nil x, splitlinesAux_chunk x hx.2.2 [] []]
      rw [List.append_nil]
      simp only [splitlinesAux]
      rw [if_neg (by simpa using hx.1), List.reverse_reverse]
      simp
    | cons y zs =>
      show splitlinesAux (joinNL (x :: y :: zs)) [] = x :: y :: zs
      rw [joinNL, splitlinesAux_chunk x hx.2.2 _ [],
        splitlinesAux_cons_break '\n' _ _ (Or.inr (by decide))]
      rw [List.append_nil, List.reverse_reverse]
      exact congrArg (x :: ·) (ih (fun z hz => hxs z (by simp [hz])))

/-- C6 counterexample: the free-text input `CCO\nCCO` yields the identifier
sequence `[CCO, CCO]`, in which an identifier occurs twice — the
normalizer output is not deduplicated. -/
theorem freeText_dedup_counterexample :
    resolveIdentifiers .absent (pystr "CCO\nCCO") = [pystr "CCO", pystr "CCO"] ∧
    ¬ (resolveIdentifiers .absent (pystr "CCO\nCCO")).Nodup := by
  exact ⟨by decide, by decide⟩

/-- C6 (amended): on either path the normalizer output is an
order-preserving sequence with duplicates retained.  Free text: any
sequence of clean lines — also one with repeated entries — is returned
exactly as submitted, in order.  Tabular upload: any non-empty `smiles`
column — also one with repeated cells — is returned exactly as its
stringified cells, in order, with no deduplication. -/
theorem normalizer_preserves_order_and_duplicates :
    (∀ xs : List PyStr, (∀ x ∈ xs, CleanLine x) →
      resolveIdentifiers .absent (joinNL xs) = xs ∧
      parseFreeText (joinNL xs) = xs) ∧
    (∀ (ys : List PyStr) (text : PyStr), ys ≠ [] →
      resolveIdentifiers (.table ⟨[(smilesName, ys.map some)]⟩) text = ys) := by
  constructor
  · intro xs hxs
    have hp : parseFreeText (joinNL xs) = xs := by
      unfold parseFreeText
      rw [pySplitlines_joinNL xs hxs]
      induction xs with
      | nil => rfl
      | cons x ys ih =>
        have hx := hxs x (by simp)
        rw [List.filterMap_cons]
        rw [hx.2.1, if_neg hx.1, ih (fun z hz => hxs z (by simp [hz]))]
    exact ⟨(resolve_of_tabularIds_nil Uploaded.absent (joinNL xs) (by decide)).trans hp,
      hp⟩
  · intro ys text hne
    have hcol : getColumn ⟨[(smilesName, ys.map some)]⟩ smilesName
        = some (ys.map some) := rfl
    have hres := resolve_table_nonempty_col ⟨[(smilesName, ys.map some)]⟩
      (ys.map some) text hcol (by simpa [List.map_eq_nil_iff] using hne)
    rw [hres, List.map_map]
    have hid : ∀ y ∈ ys, (astypeStr ∘ some) y = id y := fun y _ => rfl
    rw [List.map_congr_left hid, List.map_id]

theorem normalizer_preserves_order_and_duplicates_witness :
    (∀ x ∈ [pystr "CCO", pystr "CCN", pystr "CCO"], CleanLine x) ∧
    (resolveIdentifiers .absent (joinNL [pystr "CCO", pystr "CCN", pystr "CCO"])
        = [pystr "CCO", pystr "CCN", pystr "CCO"] ∧
      parseFreeText (joinNL [pystr "CCO", pystr "CCN", pystr "CCO"])
        = [pystr "CCO", pystr "CCN", pystr "CCO"]) ∧
    resolveIdentifiers
        (.table ⟨[(smilesName, [pystr "CCO", pystr "CCO"].map some)]⟩) []
      = [pystr "CCO", pystr "CCO"] :=
  ⟨by decide,
   normalizer_preserves_order_and_duplicates.1
     [pystr "CCO", pystr "CCN", pystr "CCO"] (by decide),
   normalizer_preserves_order_and_duplicates.2
     [pystr "CCO", pystr "CCO"] [] (by decide)⟩

lemma n_lt_ten_pow (n : ℕ) : n < 10 ^ (n + 1) := by
  induction n with
  | zero => norm_num
  | succ n ih =>
    have hstep : (10 : ℕ) ^ (n + 2) = 10 ^ (n + 1) * 10 := pow_succ 10 (n + 1)
    omega

lemma foldl_digitsVal (ds : List ℕ) (a : ℕ) :
    List.foldl (fun x d => x * 10 + d) a ds = a * 10 ^ ds.length + digitsVal ds := by
  induction ds generalizing a with
  | nil => simp [digitsVal]
  | cons d ds ih =>
    have h1 : List.foldl (fun x d => x * 10 + d) a (d :: ds)
        = List.foldl (fun x d => x * 10 + d) (a * 10 + d) ds := rfl
    have h2 : digitsVal (d :: ds)
        = List.foldl (fun x d => x * 10 + d) (0 * 10 + d) ds := rfl
    rw [h1, ih, h2, ih, List.length_cons]
    ring

lemma natDigitsAux_spec (fuel : ℕ) :
    ∀ n, n < 10 ^ fuel →
      (∀ d ∈ natDigitsAux fuel n, d < 10) ∧ digitsVal (natDigitsAux fuel n) = n := by
  induction fuel with
  | zero =>
    intro n hn
    obtain rfl : n = 0 := by simpa using hn
    exact ⟨by simp [natDigitsAux], by simp [natDigitsAux, digitsVal]⟩
  | succ fuel ih =>
    intro n hn
    by_cases h10 : n < 10
    · refine ⟨?_, ?_⟩
      · intro d hd
        simp only [natDigitsAux, if_pos h10, List.mem_singleton] at hd
        omega
      · simp [natDigitsAux, if_pos h10, digitsVal]
    · have hdiv : n / 10 < 10 ^ fuel := by
        rw [Nat.div_lt_iff_lt_mul (by norm_num)]
        calc n < 10 ^ (fuel + 1) := hn
        _ = 10 ^ fuel * 10 := pow_succ 10 fuel
      obtain ⟨hd, hv⟩ := ih (n / 10) hdiv
      refine ⟨?_, ?_⟩
      · intro d hdm
        simp only [natDigitsAux, if_neg h10, List.mem_append, List.mem_singleton] at hdm
        rcases hdm with hdm | rfl
        · exact hd d hdm
        · exact Nat.mod_lt n (by norm_num)
      · show digitsVal (natDigitsAux (fuel + 1) n) = n
        simp only [natDigitsAux, if_neg h10]
        unfold digitsVal
        rw [List.foldl_append]
        have hfin : List.foldl (fun x d => x * 10 + d)
            (List.foldl (fun x d => x * 10 + d) 0 (natDigitsAux fuel (n / 10)))
            [n % 10]
            = digitsVal (natDigitsAux fuel (n / 10)) * 10 + n % 10 := rfl
        rw [hfin, hv]
        omega

lemma natDigits_spec (n : ℕ) :
    (∀ d ∈ natDigits n, d < 10) ∧ digitsVal (natDigits n) = n :=
  natDigitsAux_spec (n + 1) n (n_lt_ten_pow n)

lemma natDigits_ne_nil (n : ℕ) : natDigits n ≠ [] := by
  unfold natDigits natDigitsAux
  by_cases h : n < 10 <;> simp [h]

lemma digitChar_val (d : ℕ) (h : d < 10) :
    (digitChar d).isDigit = true ∧ (digitChar d).toNat - 48 = d := by
  interval_cases d <;> exact ⟨by decide, by decide⟩

lemma parseNat_optfoldl (ds : List ℕ) (hds : ∀ d ∈ ds, d < 10) (a : ℕ) :
    List.foldl (fun acc c => acc.bind (fun x =>
        if c.isDigit then some (x * 10 + (c.toNat - 48)) else none)) (some a)
      (ds.map digitChar)
    = some (List.foldl (fun x d => x * 10 + d) a ds) := by
  induction ds generalizing a with
  | nil => rfl
  | cons d ds ih =>
    have hd := digitChar_val d (hds d (by simp))
    simp only [List.map_cons, List.foldl_cons, Option.bind_eq_bind,
      Option.some_bind, hd.1, if_true, hd.2]
    exact ih (fun x hx => hds x (by simp [hx])) (a * 10 + d)

lemma parseNatChars_natRepr (n : ℕ) : parseNatChars (natRepr n) = some n := by
  obtain ⟨hd, hv⟩ := natDigits_spec n
  unfold parseNatChars natRepr
  rw [if_neg (by simpa [List.map_eq_nil_iff] using natDigits_ne_nil n)]
  rw [parseNat_optfoldl (natDigits n) hd 0]
  have : List.foldl (fun x d => x * 10 + d) 0 (natDigits n) = digitsVal (natDigits n) := rfl
  rw [this, hv]

lemma natRepr_injective : Function.Injective natRepr := by
  intro a b h
  have ha := parseNatChars_natRepr a
  rw [h, parseNatChars_natRepr b] at ha
  exact (Option.some.inj ha).symm

lemma ligandName_injective : Function.Injective ligandName := by
  intro a b h
  unfold ligandName at h
  rw [List.append_assoc, List.append_assoc] at h
  have h1 := List.append_cancel_left h
  have h2 := List.append_cancel_right h1
  exact natRepr_injective h2

lemma zipEntriesFrom_map_fst (i : ℕ) (t : List ResultRecord) :
    (zipEntriesFrom i t).map Prod.fst
      = (List.range t.length).map (fun k => ligandName (k + i + 1)) := by
  induction t generalizing i with
  | nil => rfl
  | cons r rs ih =>
    show ligandName (i + 1) :: (zipEntriesFrom (i + 1) rs).map Prod.fst = _
    rw [ih (i + 1), List.length_cons, List.range_succ_eq_map, List.map_cons,
      List.map_map]
    refine congrArg₂ (· :: ·) (by congr 1; omega) ?_
    apply List.map_congr_left
    intro k hk
    show ligandName (k + (i + 1) + 1) = ligandName ((k + 1) + i + 1)
    congr 1
    omega

lemma zipEntriesFrom_map_snd (i : ℕ) (t : List ResultRecord) :
    (zipEntriesFrom i t).map Prod.snd = t.map entryTxt := by
  induction t generalizing i with
  | nil => rfl
  | cons r rs ih =>
    show entryTxt r :: (zipEntriesFrom (i + 1) rs).map Prod.snd = _
    rw [ih (i + 1), List.map_cons]

/-- C8: the archive export has exactly one entry per record, named
`ligand_1.txt` … `ligand_N.txt` in record order (the names are pairwise
distinct), and the body of the entry for each record is its fixed-format
text block (identifier line, three 4-decimal probability lines, label
line, as laid out in `entryTxt`). -/
theorem archive_export_shape (t : List ResultRecord) :
    (zipEntriesOf t).map Prod.fst
      = (List.range t.length).map (fun i => ligandName (i + 1)) ∧
    (zipEntriesOf t).map Prod.snd = t.map entryTxt ∧
    ((zipEntriesOf t).map Prod.fst).Nodup := by
  have h1 : (zipEntriesOf t).map Prod.fst
      = (List.range t.length).map (fun i => ligandName (i + 1)) := by
    rw [zipEntriesOf, zipEntriesFrom_map_fst 0 t]
  refine ⟨h1, zipEntriesFrom_map_snd 0 t, ?_⟩
  rw [h1]
  exact (List.nodup_range t.length).map
    (fun a b hab => by simpa using ligandName_injective hab)

lemma fracDigitsAux_spec (fuel : ℕ) :
    ∀ r d, 0 < d → r < d → d ∣ r * 10 ^ fuel →
      (∀ x ∈ fracDigitsAux fuel r d, x < 10) ∧
      digitsVal (fracDigitsAux fuel r d) * d
        = r * 10 ^ (fracDigitsAux fuel r d).length := by
  induction fuel with
  | zero =>
    intro r d hd hr hdvd
    obtain rfl : r = 0 := Nat.eq_zero_of_dvd_of_lt (by simpa using hdvd) hr
    simp [fracDigitsAux, digitsVal]
  | succ fuel ih =>
    intro r d hd hr hdvd
    by_cases hr0 : r = 0
    · subst hr0
      simp [fracDigitsAux, digitsVal]
    · have hd0 : 10 * r / d < 10 := by
        rw [Nat.div_lt_iff_lt_mul hd]
        omega
      have hr' : 10 * r % d < d := Nat.mod_lt _ hd
      have hdm := Nat.div_add_mod (10 * r) d
      have hdvd' : d ∣ (10 * r % d) * 10 ^ fuel := by
        have hmod : 10 * r % d = 10 * r - d * (10 * r / d) := by omega
        have h1 : d ∣ 10 * r * 10 ^ fuel := by
          have hpow : 10 * r * 10 ^ fuel = r * 10 ^ (fuel + 1) := by ring
          rw [hpow]
          exact hdvd
        have h2 : d ∣ d * (10 * r / d) * 10 ^ fuel :=
          ⟨(10 * r / d) * 10 ^ fuel, by ring⟩
        have hsub : (10 * r % d) * 10 ^ fuel
            = 10 * r * 10 ^ fuel - d * (10 * r / d) * 10 ^ fuel := by
          rw [hmod, Nat.sub_mul]
        rw [hsub]
        exact Nat.dvd_sub' h1 h2
      obtain ⟨hdig, hval⟩ := ih (10 * r % d) d hd hr' hdvd'
      refine ⟨?_, ?_⟩
      · intro x hx
        simp only [fracDigitsAux, if_neg hr0, List.mem_cons] at hx
        rcases hx with rfl | hx
        · exact hd0
        · exact hdig x hx
      · simp only [fracDigitsAux, if_neg hr0]
        have hcons : digitsVal (10 * r / d :: fracDigitsAux fuel (10 * r % d) d)
            = (10 * r / d) * 10 ^ (fracDigitsAux fuel (10 * r % d) d).length
              + digitsVal (fracDigitsAux fuel (10 * r % d) d) := by
          unfold digitsVal
          show List.foldl _ (0 * 10 + 10 * r / d) _ = _
          rw [foldl_digitsVal]
          norm_num
          rfl
        rw [hcons, List.length_cons]
        have hgoal : ((10 * r / d) * 10 ^ (fracDigitsAux fuel (10 * r % d) d).length
              + digitsVal (fracDigitsAux fuel (10 * r % d) d)) * d
            = (d * (10 * r / d) + 10 * r % d)
              * 10 ^ (fracDigitsAux fuel (10 * r % d) d).length := by
          rw [Nat.add_mul, Nat.add_mul, hval]
          ring
        rw [hgoal, hdm]
        ring

lemma fracDigitsAux_nil_imp (fuel r d : ℕ) (hf : fuel ≠ 0)
    (h : fracDigitsAux fuel r d = []) : r = 0 := by
  cases fuel with
  | zero => exact absurd rfl hf
  | succ fuel =>
    by_contra hr0
    simp [fracDigitsAux, hr0] at h

lemma natRepr_all_digits (n : ℕ) : ∀ c ∈ natRepr n, c.isDigit = true := by
  intro c hc
  unfold natRepr at hc
  obtain ⟨d, hd, rfl⟩ := List.mem_map.mp hc
  exact (digitChar_val d ((natDigits_spec n).1 d hd)).1

lemma isDigit_ne_dot (c : Char) (h : c.isDigit = true) : (c != '.') = true := by
  have hne : c ≠ '.' := by
    intro heq
    rw [heq] at h
    exact absurd h (by decide)
  simpa using hne

lemma takeWhile_append_dot (xs fp : PyStr) (hxs : ∀ c ∈ xs, (c != '.') = true) :
    (xs ++ '.' :: fp).takeWhile (fun c => c != '.') = xs ∧
    (xs ++ '.' :: fp).dropWhile (fun c => c != '.') = '.' :: fp := by
  induction xs with
  | nil => exact ⟨by simp [List.takeWhile], by simp [List.dropWhile]⟩
  | cons c xs ih =>
    obtain ⟨h1, h2⟩ := ih (fun d hd => hxs d (by simp [hd]))
    have hc := hxs c (by simp)
    exact ⟨by simp [List.takeWhile_cons, hc, h1], by simp [List.dropWhile_cons, hc, h2]⟩

lemma parseNatChars_digitList (fds : List ℕ) (hfds : ∀ d ∈ fds, d < 10)
    (hne : fds ≠ []) :
    parseNatChars (fds.map digitChar) = some (digitsVal fds) := by
  unfold parseNatChars
  rw [if_neg (by simpa [List.map_eq_nil_iff] using hne), parseNat_optfoldl fds hfds 0]
  rfl

lemma parseFloatChars_concrete (i : ℕ) (fds : List ℕ) (hfds : ∀ d ∈ fds, d < 10)
    (hne : fds ≠ []) :
    parseFloatChars (natRepr i ++ '.' :: fds.map digitChar)
      = some ((i : ℚ) + (digitsVal fds : ℚ) / 10 ^ fds.length) := by
  have hsplit := takeWhile_append_dot (natRepr i) (fds.map digitChar)
    (fun c hc => isDigit_ne_dot c (natRepr_all_digits i c hc))
  unfold parseFloatChars
  rw [hsplit.2]
  show (parseNatChars ((natRepr i ++ '.' :: fds.map digitChar).takeWhile
      (fun c => c != '.'))).bind _ = _
  rw [hsplit.1, parseNatChars_natRepr i, parseNatChars_digitList fds hfds hne]
  simp

lemma parseFloat_floatRepr (q : ℚ) (hq : GoodScore q) :
    parseFloatChars (floatRepr q) = some q := by
  obtain ⟨h0, hdvd⟩ := hq
  have hdpos : 0 < q.den := q.pos
  have hnumZ : (q.num.natAbs : ℤ) = q.num :=
    Int.natAbs_of_nonneg (Rat.num_nonneg.mpr h0)
  have hq_eq : ((q.num.natAbs : ℚ)) / (q.den : ℚ) = q := by
    have hc : ((q.num.natAbs : ℚ)) = (q.num : ℚ) := by
      have hcast := congrArg (fun z : ℤ => (z : ℚ)) hnumZ
      exact (Int.cast_natCast q.num.natAbs).symm.trans hcast
    rw [hc]
    exact Rat.num_div_den q
  have hnotneg : ¬ q < 0 := not_lt.mpr h0
  have hr : q.num.natAbs % q.den < q.den := Nat.mod_lt _ hdpos
  have hdvd' : q.den ∣ (q.num.natAbs % q.den) * 10 ^ q.den := hdvd.mul_left _
  obtain ⟨hdig, hval⟩ :=
    fracDigitsAux_spec q.den (q.num.natAbs % q.den) q.den hdpos hr hdvd'
  have hdm := Nat.div_add_mod q.num.natAbs q.den
  have hd0 : (q.den : ℚ) ≠ 0 := by exact_mod_cast hdpos.ne'
  by_cases hnil : fracDigitsAux q.den (q.num.natAbs % q.den) q.den = []
  · have hmod0 : q.num.natAbs % q.den = 0 :=
      fracDigitsAux_nil_imp q.den _ q.den (by omega) hnil
    have hfr : floatRepr q
        = natRepr (q.num.natAbs / q.den) ++ '.' :: [(0 : ℕ)].map digitChar := by
      unfold floatRepr
      rw [if_neg hnotneg, hnil]
      simp [show digitChar 0 = '0' from by decide]
    rw [hfr, parseFloatChars_concrete _ [0] (by simp) (by simp)]
    congr 1
    have hdv : (digitsVal [0] : ℚ) = 0 := by norm_num [digitsVal]
    have key : ((q.num.natAbs / q.den : ℕ) : ℚ)
        + (digitsVal [0] : ℚ) / 10 ^ ([(0 : ℕ)] : List ℕ).length
        = (q.num.natAbs : ℚ) / (q.den : ℚ) := by
      rw [hdv]
      norm_num
      rw [eq_div_iff hd0]
      have hdvd_n : q.den ∣ q.num.natAbs := Nat.dvd_of_mod_eq_zero hmod0
      exact_mod_cast Nat.div_mul_cancel hdvd_n
    exact key.trans hq_eq
  · have hfr : floatRepr q = natRepr (q.num.natAbs / q.den) ++ '.' ::
        (fracDigitsAux q.den (q.num.natAbs % q.den) q.den).map digitChar := by
      unfold floatRepr
      rw [if_neg hnotneg, if_neg hnil]
      simp
    rw [hfr, parseFloatChars_concrete _ _ hdig hnil]
    congr 1
    have hdmQ : (q.den : ℚ) * ((q.num.natAbs / q.den : ℕ) : ℚ)
          + ((q.num.natAbs % q.den : ℕ) : ℚ) = (q.num.natAbs : ℚ) := by
      exact_mod_cast hdm
    have hvalQ : (digitsVal (fracDigitsAux q.den (q.num.natAbs % q.den) q.den) : ℚ)
          * (q.den : ℚ)
        = ((q.num.natAbs % q.den : ℕ) : ℚ)
          * 10 ^ (fracDigitsAux q.den (q.num.natAbs % q.den) q.den).length := by
      exact_mod_cast hval
    have key : ((q.num.natAbs / q.den : ℕ) : ℚ)
        + (digitsVal (fracDigitsAux q.den (q.num.natAbs % q.den) q.den) : ℚ)
          / 10 ^ (fracDigitsAux q.den (q.num.natAbs % q.den) q.den).length
        = (q.num.natAbs : ℚ) / (q.den : ℚ) := by
      field_simp
      linear_combination
        (10 : ℚ) ^ (fracDigitsAux q.den (q.num.natAbs % q.den) q.den).length * hdmQ
          + hvalQ
    exact key.trans hq_eq

lemma escapeInner_nil : escapeInner [] = [] := rfl

lemma escapeInner_cons (c : Char) (f : PyStr) :
    escapeInner (c :: f)
      = (if c = '"' then ['"', '"'] else [c]) ++ escapeInner f := rfl

lemma parseQuoted_cons_ne (c : Char) (hc : c ≠ '"') (rest : PyStr) :
    parseQuoted (c :: rest) = (parseQuoted rest).map (fun p => (c :: p.1, p.2)) := by
  cases rest with
  | nil =>
    rw [parseQuoted.eq_3 c [] (by intro r2 h; cases h), if_neg hc]
  | cons d tail =>
    by_cases hd : d = '"'
    · subst hd
      rw [parseQuoted.eq_2 c tail, if_neg hc]
    · rw [parseQuoted.eq_3 c (d :: tail)
        (fun r2 heq => hd (List.head_eq_of_cons_eq heq)), if_neg hc]

lemma parseQuoted_quote_quote (x : PyStr) :
    parseQuoted ('"' :: '"' :: x)
      = (parseQuoted x).map (fun p => ('"' :: p.1, p.2)) := by
  rw [parseQuoted.eq_2 '"' x, if_pos rfl]

lemma parseQuoted_quote_end (rest : PyStr) (hrest : rest.head? ≠ some '"') :
    parseQuoted ('"' :: rest) = some ([], rest) := by
  have h3 : ∀ rest2, rest = '"' :: rest2 → False := by
    intro r2 heq
    rw [heq] at hrest
    simp at hrest
  rw [parseQuoted.eq_3 '"' rest h3, if_pos rfl]

lemma parseQuoted_escapeInner (f : PyStr) :
    ∀ rest : PyStr, rest.head? ≠ some '"' →
      parseQuoted (escapeInner f ++ '"' :: rest) = some (f, rest) := by
  induction f with
  | nil =>
    intro rest hrest
    rw [escapeInner_nil, List.nil_append, parseQuoted_quote_end rest hrest]
  | cons c f ih =>
    intro rest hrest
    rw [escapeInner_cons]
    by_cases hc : c = '"'
    · subst hc
      rw [if_pos rfl]
      show parseQuoted ('"' :: '"' :: (escapeInner f ++ '"' :: rest)) = _
      rw [parseQuoted_quote_quote, ih rest hrest]
      rfl
    · rw [if_neg hc]
      show parseQuoted (c :: (escapeInner f ++ '"' :: rest)) = _
      rw [parseQuoted_cons_ne c hc, ih rest hrest]
      rfl

lemma parseBareField_clean (f : PyStr) (hf : ∀ c ∈ f, ¬(c = ',' ∨ c = '\n')) :
    ∀ rest : PyStr,
      (rest = [] ∨ rest.head? = some ',' ∨ rest.head? = some '\n') →
      parseBareField (f ++ rest) = (f, rest) := by
  induction f with
  | nil =>
    intro rest hrest
    rw [List.nil_append]
    rcases hrest with rfl | h | h
    · rfl
    · cases rest with
      | nil => simp at h
      | cons c r =>
        obtain rfl : c = ',' := by simpa using h
        simp [parseBareField]
    · cases rest with
      | nil => simp at h
      | cons c r =>
        obtain rfl : c = '\n' := by simpa using h
        simp [parseBareField]
  | cons c f ih =>
    intro rest hrest
    have hc := hf c (by simp)
    show parseBareField (c :: (f ++ rest)) = (c :: f, rest)
    simp only [parseBareField]
    rw [if_neg hc, ih (fun d hd => hf d (by simp [hd])) rest hrest]

lemma needsQuote_false_mem (s : PyStr) (h : needsQuote s = false) :
    ∀ c ∈ s, c ≠ ',' ∧ c ≠ '"' ∧ c ≠ '\n' ∧ c ≠ '\r' := by
  intro c hc
  unfold needsQuote at h
  rw [List.any_eq_false] at h
  have hcf := h c hc
  simp only [Bool.or_eq_true, beq_iff_eq, not_or] at hcf
  exact ⟨hcf.1.1.1, hcf.1.1.2, hcf.1.2, hcf.2⟩

lemma parseOneField_escapeField (f : PyStr) (rest : PyStr)
    (hrest : rest = [] ∨ rest.head? = some ',' ∨ rest.head? = some '\n') :
    parseOneField (escapeField f ++ rest) = some (f, rest) := by
  have hrest2 : rest.head? ≠ some '"' := by
    rcases hrest with rfl | h | h
    · simp
    · rw [h]; simp
    · rw [h]; simp
  unfold escapeField
  by_cases hq : needsQuote f = true
  · rw [if_pos hq]
    have hshape : ('"' :: (escapeInner f ++ ['"'])) ++ rest
        = '"' :: (escapeInner f ++ '"' :: rest) := by simp
    rw [hshape]
    unfold parseOneField
    rw [List.head?_cons, if_pos rfl, List.tail_cons]
    exact parseQuoted_escapeInner f rest hrest2
  · rw [if_neg hq]
    have hmem := needsQuote_false_mem f (by simpa using hq)
    have hhead : (f ++ rest).head? ≠ some '"' := by
      cases f with
      | nil => simpa using hrest2
      | cons c fs =>
        have hcq := (hmem c (by simp)).2.1
        simpa using hcq
    unfold parseOneField
    rw [if_neg hhead]
    rw [parseBareField_clean f
      (fun c hc => by have hx := hmem c hc; tauto) rest hrest]

lemma parseRecordAux_row (fs : List PyStr) (hne : fs ≠ []) :
    ∀ (fuel : ℕ), fs.length ≤ fuel → ∀ rest : PyStr,
      parseRecordAux fuel (rowChars fs ++ '\n' :: rest) = some (fs, rest) := by
  induction fs with
  | nil => exact absurd rfl hne
  | cons f fs ih =>
    intro fuel hfuel rest
    simp only [List.length_cons] at hfuel
    obtain ⟨fuel', rfl⟩ : ∃ k, fuel = k + 1 := ⟨fuel - 1, by omega⟩
    cases fs with
    | nil =>
      show parseRecordAux (fuel' + 1) (escapeField f ++ '\n' :: rest) = some ([f], rest)
      simp only [parseRecordAux]
      rw [parseOneField_escapeField f ('\n' :: rest) (Or.inr (Or.inr rfl))]
      rfl
    | cons g gs =>
      have hshape : rowChars (f :: g :: gs) ++ '\n' :: rest
          = escapeField f ++ (',' :: (rowChars (g :: gs) ++ '\n' :: rest)) := by
        show (escapeField f ++ ',' :: rowChars (g :: gs)) ++ '\n' :: rest = _
        simp
      rw [hshape]
      simp only [parseRecordAux]
      rw [parseOneField_escapeField f (',' :: (rowChars (g :: gs) ++ '\n' :: rest))
        (Or.inr (Or.inl rfl))]
      show Option.map (fun q => (f :: q.1, q.2))
        (parseRecordAux fuel' (rowChars (g :: gs) ++ '\n' :: rest)) = _
      rw [ih (by simp) fuel' (by simp only [List.length_cons] at hfuel ⊢; omega) rest]
      rfl

lemma rowChars_length_ge (fs : List PyStr) : fs.length ≤ (rowChars fs).length + 1 := by
  induction fs with
  | nil => simp
  | cons f fs ih =>
    cases fs with
    | nil => simp [rowChars]
    | cons g gs =>
      show (g :: gs).length + 1
          ≤ (escapeField f ++ ',' :: rowChars (g :: gs)).length + 1
      rw [List.length_append]
      simp only [List.length_cons] at ih ⊢
      omega


lemma serializedRows_length_ge (rows : List (List PyStr)) :
    rows.length ≤ ((rows.map (fun fs => rowChars fs ++ ['\n'])).flatten).length := by
  induction rows with
  | nil => simp
  | cons r rs ih =>
    rw [List.map_cons, List.flatten_cons, List.length_append, List.length_append]
    simp only [List.length_cons]
    omega

lemma parseRowsAux_doc (rows : List (List PyStr)) (hrows : ∀ r ∈ rows, r ≠ []) :
    ∀ fuel, rows.length ≤ fuel →
      parseRowsAux fuel ((rows.map (fun fs => rowChars fs ++ ['\n'])).flatten)
        = some rows := by
  induction rows with
  | nil =>
    intro fuel hf
    cases fuel with
    | zero => rfl
    | succ fuel => simp [parseRowsAux]
  | cons r rs ih =>
    intro fuel hf
    simp only [List.length_cons] at hf
    obtain ⟨fuel', rfl⟩ : ∃ k, fuel = k + 1 := ⟨fuel - 1, by omega⟩
    have hjoin : (((r :: rs).map (fun fs => rowChars fs ++ ['\n'])).flatten)
        = rowChars r ++ '\n' :: ((rs.map (fun fs => rowChars fs ++ ['\n'])).flatten) := by
      rw [List.map_cons, List.flatten_cons]
      simp
    rw [hjoin]
    simp only [parseRowsAux]
    have hne : rowChars r ++ '\n' :: ((rs.map (fun fs => rowChars fs ++ ['\n'])).flatten)
        ≠ [] := by
      intro hcontra
      have hlen := congrArg List.length hcontra
      rw [List.length_append] at hlen
      simp at hlen
    rw [if_neg hne]
    have hlenr : r.length
        ≤ (rowChars r ++ '\n' ::
            ((rs.map (fun fs => rowChars fs ++ ['\n'])).flatten)).length + 1 := by
      rw [List.length_append]
      have := rowChars_length_ge r
      simp only [List.length_cons]
      omega
    rw [parseRecordAux_row r (hrows r (by simp)) _ hlenr _]
    show Option.map (fun rs => r :: rs)
      (parseRowsAux fuel' ((rs.map (fun fs => rowChars fs ++ ['\n'])).flatten))
      = some (r :: rs)
    rw [ih (fun x hx => hrows x (by simp [hx])) fuel' (by omega)]
    rfl

lemma decodeRecord_recordFields (r : ResultRecord) (hr : GoodRecord r) :
    decodeRecord (recordFields r) = some r := by
  obtain ⟨h1, h2, h3⟩ := hr
  show decodeRecord [r.smiles, floatRepr r.p_agonist, floatRepr r.p_antagonist,
    floatRepr r.p_inactive, r.pred_label, natRepr r.binary] = some r
  simp only [decodeRecord]
  rw [parseFloat_floatRepr _ h1, parseFloat_floatRepr _ h2,
    parseFloat_floatRepr _ h3, parseNatChars_natRepr]
  rfl

lemma decodeRows_map (t : List ResultRecord) (ht : ∀ r ∈ t, GoodRecord r) :
    decodeRows (t.map recordFields) = some t := by
  induction t with
  | nil => rfl
  | cons r rs ih =>
    rw [List.map_cons]
    simp only [decodeRows]
    rw [decodeRecord_recordFields r (ht r (by simp)),
      ih (fun x hx => ht x (by simp [hx]))]
    rfl

/-- C9: the flat export is a header row naming the six record fields in
the fixed order, followed by one newline-terminated data row per record
with the floating-point fields rendered exactly; parsing the export's
header and rows reconstructs the table field-for-field (round-trip). -/
theorem csv_roundtrip (t : List ResultRecord) (ht : ∀ r ∈ t, GoodRecord r) :
    parseCsvChars (toCsvChars t) = some t ∧
    ∃ rest, toCsvChars t = (rowChars headerFields ++ ['\n']) ++ rest := by
  have hrowsne : ∀ r ∈ headerFields :: t.map recordFields, r ≠ [] := by
    intro r hr
    rcases List.mem_cons.mp hr with rfl | hr
    · intro hcontra
      exact absurd (congrArg List.length hcontra) (by simp [headerFields])
    · obtain ⟨x, _, rfl⟩ := List.mem_map.mp hr
      intro hcontra
      exact absurd (congrArg List.length hcontra) (by simp [recordFields])
  constructor
  · unfold parseCsvChars toCsvChars
    rw [parseRowsAux_doc (headerFields :: t.map recordFields) hrowsne _
      (by
        have := serializedRows_length_ge (headerFields :: t.map recordFields)
        omega)]
    show (if headerFields = headerFields then decodeRows (t.map recordFields)
      else none) = some t
    rw [if_pos rfl]
    exact decodeRows_map t ht
  · refine ⟨((t.map recordFields).map (fun fs => rowChars fs ++ ['\n'])).flatten, ?_⟩
    unfold toCsvChars
    rw [List.map_cons, List.flatten_cons]

theorem csv_roundtrip_witness :
    (∀ r ∈ mockGpcrResults [pystr "CCO"] (mkRat 1 2), GoodRecord r) ∧
    parseCsvChars (toCsvChars (mockGpcrResults [pystr "CCO"] (mkRat 1 2)))
      = some (mockGpcrResults [pystr "CCO"] (mkRat 1 2)) :=
  ⟨by decide, (csv_roundtrip (mockGpcrResults [pystr "CCO"] (mkRat 1 2)) (by decide)).1⟩
